import Mathlib

/-!
Shallow embedding of the rating backend (`src/main.py`): normalization and
validation of incoming rating submissions (`CountryRatingIn`), and the two
aggregation endpoints `ratings_summary` and `country_rating_stats` built on
MongoDB group/round/sort/limit stages, modelled over an explicit list of
stored records.
-/

/-- A Python string, modelled as its list of Unicode code points. -/
abbrev PyStr := List Nat

/-- Embeds Python `str.isspace` per code point, faithful on code points up to
0xFF (the range exercised in this development): ASCII whitespace 0x09-0x0D and
0x20, the information separators 0x1C-0x1F, NEL 0x85 and NBSP 0xA0. -/
def pyIsSpace (n : Nat) : Bool :=
  decide ((9 ≤ n ∧ n ≤ 13) ∨ (28 ≤ n ∧ n ≤ 31) ∨ n = 32 ∨ n = 133 ∨ n = 160)

/-- Embeds Python `str.isalnum` per code point, faithful on code points up to
0xFF: ASCII digits and letters, the Latin-1 letters 0xC0-0xFF minus the two
signs 0xD7 and 0xF7, and the Latin-1 alphanumerics 0xAA, 0xB2, 0xB3, 0xB5,
0xB9, 0xBA, 0xBC, 0xBD, 0xBE. -/
def pyIsAlnum (n : Nat) : Bool :=
  decide ((48 ≤ n ∧ n ≤ 57) ∨ (65 ≤ n ∧ n ≤ 90) ∨ (97 ≤ n ∧ n ≤ 122) ∨
    n = 170 ∨ n = 178 ∨ n = 179 ∨ n = 181 ∨ n = 185 ∨ n = 186 ∨
    n = 188 ∨ n = 189 ∨ n = 190 ∨
    (192 ≤ n ∧ n ≤ 255 ∧ n ≠ 215 ∧ n ≠ 247))

/-- Embeds Python `str.lower` per code point, faithful on code points up to
0xFF: ASCII uppercase and the Latin-1 uppercase 0xC0-0xDE (minus the sign
0xD7) shift by 0x20, everything else is unchanged. -/
def pyLowerChar (n : Nat) : Nat :=
  if 65 ≤ n ∧ n ≤ 90 then n + 32
  else if 192 ≤ n ∧ n ≤ 222 ∧ n ≠ 215 then n + 32
  else n

/-- Embeds Python `str.lower` on a whole string. -/
def pyLower (s : PyStr) : PyStr := s.map pyLowerChar

/-- Embeds Python `str.strip` with no argument: remove leading and trailing
whitespace. -/
def pyStrip (s : PyStr) : PyStr :=
  ((s.dropWhile pyIsSpace).reverse.dropWhile pyIsSpace).reverse

/-- The per-character test of `CountryRatingIn.validate_slug`:
`ch.isalnum() or ch in ["-"]` (0x2D is the hyphen). -/
def slugCharOk (n : Nat) : Bool := pyIsAlnum n || n == 45

/-- Embeds `CountryRatingIn.validate_slug`: `sv = v.strip().lower()`; reject
when `sv` is empty or some character fails `slugCharOk`; otherwise return the
normalized slug `sv`. -/
def validate_slug (v : PyStr) : Option PyStr :=
  if (pyLower (pyStrip v)).isEmpty ||
      (pyLower (pyStrip v)).any (fun ch => !slugCharOk ch)
  then none
  else some (pyLower (pyStrip v))

/-- The character class `[a-z0-9-]` in which the specification says every
character of a normalized slug must lie. This definition follows the spec's
words, for comparison against the source-derived `slugCharOk`. -/
def specSlugChar (n : Nat) : Bool :=
  decide ((97 ≤ n ∧ n ≤ 122) ∨ (48 ≤ n ∧ n ≤ 57) ∨ n = 45)

/-- A Python float as the rating arrives: a finite value (idealized as a
rational) or one of the non-finite values. -/
inductive PyFloat where
  | finite (q : ℚ)
  | inf
  | ninf
  | nan
deriving DecidableEq

/-- The pydantic `ge=0` bound on the rating field; comparisons against `nan`
are false, as in the IEEE semantics Python uses. -/
def PyFloat.geZero : PyFloat → Bool
  | .finite q => decide (0 ≤ q)
  | .inf => true
  | .ninf => false
  | .nan => false

/-- The pydantic `le=5` bound on the rating field; comparisons against `nan`
are false, as in the IEEE semantics Python uses. -/
def PyFloat.leFive : PyFloat → Bool
  | .finite q => decide (q ≤ 5)
  | .inf => false
  | .ninf => true
  | .nan => false

/-- A raw submission payload before pydantic validation. -/
structure SubmissionRaw where
  country_slug : PyStr
  rating : PyFloat
  user_id : Option PyStr
  comment : Option PyStr
deriving DecidableEq

/-- Embeds the validated `CountryRatingIn` model: the normalized slug, a
finite in-range rating, and the two optional pass-through fields. -/
structure CountryRatingIn where
  country_slug : PyStr
  rating : ℚ
  user_id : Option PyStr
  comment : Option PyStr
deriving DecidableEq

/-- The field a pydantic `ValidationError` is attached to. -/
inductive VField where
  | country_slug
  | rating
deriving DecidableEq

deriving instance DecidableEq for Except

/-- Embeds pydantic validation of `CountryRatingIn`: the field constraints
`ge=0`/`le=5` on `rating` and the `validate_slug` field validator on
`country_slug`; on failure the list of offending fields in declaration
order, on success the normalized submission. -/
def validate (x : SubmissionRaw) : Except (List VField) CountryRatingIn :=
  match validate_slug x.country_slug, x.rating with
  | some sv, PyFloat.finite q =>
      if 0 ≤ q ∧ q ≤ 5 then Except.ok ⟨sv, q, x.user_id, x.comment⟩
      else Except.error [VField.rating]
  | some _, _ => Except.error [VField.rating]
  | none, r =>
      Except.error (VField.country_slug ::
        (if r.geZero && r.leFive then [] else [VField.rating]))

/-- The raw payload a validated submission round-trips to: the normalized
slug and the same (finite) rating and optional fields. -/
def CountryRatingIn.toRaw (y : CountryRatingIn) : SubmissionRaw :=
  ⟨y.country_slug, PyFloat.finite y.rating, y.user_id, y.comment⟩

/-- Embeds the response model `CountryRatingStats`: slug, record count and
rounded average. -/
structure CountryStats where
  country_slug : PyStr
  count : Nat
  avg : ℚ
deriving DecidableEq

/-- Rounding of a rational to the nearest integer, halves to even: the
`$round` semantics of MongoDB used by both aggregation pipelines. -/
def roundHalfEven (q : ℚ) : ℤ :=
  if q - q.floor < 1/2 then q.floor
  else if 1/2 < q - q.floor then q.floor + 1
  else if q.floor % 2 == 0 then q.floor else q.floor + 1

/-- Embeds `{"$round": ["$avg", 3]}`: round to 3 decimal places. -/
def round3 (q : ℚ) : ℚ := (roundHalfEven (q * 1000) : ℚ) / 1000

/-- The `$avg` accumulator evaluated at one slug: the arithmetic mean of the
ratings of the records carrying that slug. -/
def slugMean (recs : List CountryRatingIn) (slug : PyStr) : ℚ :=
  ((recs.filter (fun r => decide (r.country_slug = slug))).map
      (fun r => r.rating)).sum /
    ((recs.filter (fun r => decide (r.country_slug = slug))).length : ℚ)

/-- The `$group`/`$project` stages evaluated at one slug: count the records
carrying the slug and average their ratings, rounding to 3 decimals. -/
def statsFor (recs : List CountryRatingIn) (slug : PyStr) : CountryStats :=
  { country_slug := slug
    count := (recs.filter (fun r => decide (r.country_slug = slug))).length
    avg := round3 (slugMean recs slug) }

/-- Embeds the `$group` stage over the whole collection: one `CountryStats`
per distinct slug occurring in the stored records. -/
def groupBySlug (recs : List CountryRatingIn) : List CountryStats :=
  ((recs.map (fun r => r.country_slug)).dedup).map (statsFor recs)

/-- The comparison of the `{"$sort": {"avg": -1}}` stage: descending by
average. -/
def avgGe (a b : CountryStats) : Prop := b.avg ≤ a.avg

instance : DecidableRel avgGe := fun a b => inferInstanceAs (Decidable (b.avg ≤ a.avg))

instance : IsTotal CountryStats avgGe := ⟨fun a b => le_total b.avg a.avg⟩

instance : IsTrans CountryStats avgGe := ⟨fun _ _ _ h h' => le_trans h' h⟩

/-- Embeds the `$sort` stage: sort the grouped stats descending by `avg`. -/
def sortByAvgDesc (l : List CountryStats) : List CountryStats :=
  List.insertionSort avgGe l

/-- Embeds the endpoint `ratings_summary`: group, round, sort descending by
average, and append a `$limit` stage exactly when `limit` is a provided
positive integer (`if limit and isinstance(limit, int) and limit > 0`). -/
def ratings_summary (recs : List CountryRatingIn) (limit : Option Int) :
    List CountryStats :=
  match limit with
  | some l =>
      if 0 < l then (sortByAvgDesc (groupBySlug recs)).take l.toNat
      else sortByAvgDesc (groupBySlug recs)
  | none => sortByAvgDesc (groupBySlug recs)

/-- Embeds the endpoint `country_rating_stats`: `$match` the records on the
exact slug, group and round; an empty aggregation result becomes the explicit
zero-valued `CountryStats`, otherwise the first (only) group is returned. -/
def country_rating_stats (recs : List CountryRatingIn) (slug : PyStr) :
    CountryStats :=
  match groupBySlug (recs.filter (fun r => decide (r.country_slug = slug))) with
  | [] => { country_slug := slug, count := 0, avg := 0 }
  | s :: _ => s

/-- Three stored records for the slug `"a"` with ratings 1, 2 and 2: the
rounding example of the specification. -/
def demoThree : List CountryRatingIn :=
  [⟨[97], 1, none, none⟩, ⟨[97], 2, none, none⟩, ⟨[97], 2, none, none⟩]

/-- Two stored records under distinct slugs `"a"` and `"b"`. -/
def demoTwo : List CountryRatingIn :=
  [⟨[97], 3, none, none⟩, ⟨[98], 4, none, none⟩]

/-! ### Helper lemmas -/

theorem slugCharOk_not_space {n : Nat} (h : slugCharOk n = true) :
    pyIsSpace n = false := by
  simp only [slugCharOk, pyIsAlnum, Bool.or_eq_true, beq_iff_eq,
    decide_eq_true_eq] at h
  simp only [pyIsSpace, decide_eq_false_iff_not]
  omega

theorem pyLowerChar_idem (n : Nat) :
    pyLowerChar (pyLowerChar n) = pyLowerChar n := by
  unfold pyLowerChar
  split_ifs <;> omega

theorem dropWhile_eq_self_of_head {p : Nat → Bool} {l : PyStr}
    (h : ∀ c ∈ l, p c = false) : l.dropWhile p = l := by
  cases l with
  | nil => rfl
  | cons a t =>
    rw [List.dropWhile_cons, h a (List.mem_cons_self a t)]
    simp

theorem pyStrip_eq_self {l : PyStr} (h : ∀ c ∈ l, pyIsSpace c = false) :
    pyStrip l = l := by
  unfold pyStrip
  rw [dropWhile_eq_self_of_head h,
    dropWhile_eq_self_of_head (fun c hc => h c (List.mem_reverse.1 hc)),
    List.reverse_reverse]

theorem validate_slug_eq_some {v sv : PyStr} (h : validate_slug v = some sv) :
    sv = pyLower (pyStrip v) ∧ sv ≠ [] ∧ ∀ c ∈ sv, slugCharOk c = true := by
  unfold validate_slug at h
  split at h
  · exact absurd h (by simp)
  · rename_i hcond
    obtain rfl : pyLower (pyStrip v) = sv := Option.some.inj h
    simp only [Bool.or_eq_true, List.isEmpty_iff, List.any_eq_true,
      Bool.not_eq_true', not_or, not_exists, not_and] at hcond
    obtain ⟨hne, hall⟩ := hcond
    exact ⟨rfl, hne, fun c hc => by
      have := hall c hc
      rwa [Bool.not_eq_false] at this⟩

theorem validate_slug_idem {v sv : PyStr} (h : validate_slug v = some sv) :
    validate_slug sv = some sv := by
  obtain ⟨hsv, hne, hok⟩ := validate_slug_eq_some h
  have hnospace : ∀ c ∈ sv, pyIsSpace c = false :=
    fun c hc => slugCharOk_not_space (hok c hc)
  have hstrip : pyStrip sv = sv := pyStrip_eq_self hnospace
  have hlower : pyLower sv = sv := by
    rw [hsv]
    unfold pyLower
    rw [List.map_map]
    exact List.map_congr_left fun a _ => pyLowerChar_idem a
  unfold validate_slug
  rw [hstrip, hlower, if_neg]
  rw [Bool.or_eq_true, not_or]
  constructor
  · simp [List.isEmpty_iff, hne]
  · rw [List.any_eq_true]
    rintro ⟨c, hc, hbad⟩
    rw [Bool.not_eq_true', hok c hc] at hbad
    exact Bool.noConfusion hbad

theorem dropWhile_length_lt_of_head {p : Nat → Bool} {a : Nat} {t : PyStr}
    (h : p a = true) : ((a :: t).dropWhile p).length < (a :: t).length := by
  rw [List.dropWhile_cons, if_pos h]
  exact Nat.lt_succ_of_le (List.dropWhile_sublist p).length_le

theorem dropWhile_eq_self_of_length {p : Nat → Bool} {l : PyStr}
    (h : (l.dropWhile p).length = l.length) : l.dropWhile p = l := by
  cases l with
  | nil => rfl
  | cons a t =>
    by_cases hpa : p a = true
    · exact absurd h (Nat.ne_of_lt (dropWhile_length_lt_of_head hpa))
    · rw [List.dropWhile_cons, if_neg hpa]

theorem pyStrip_eq_self_of_length {l : PyStr}
    (hlen : (pyStrip l).length = l.length) : pyStrip l = l := by
  have h1 : (l.dropWhile pyIsSpace).length ≤ l.length :=
    (List.dropWhile_sublist _).length_le
  have hs : (pyStrip l).length =
      ((l.dropWhile pyIsSpace).reverse.dropWhile pyIsSpace).length := by
    unfold pyStrip
    rw [List.length_reverse]
  have h2 : ((l.dropWhile pyIsSpace).reverse.dropWhile pyIsSpace).length ≤
      (l.dropWhile pyIsSpace).length := by
    have h3 := (List.dropWhile_sublist
      (l := (l.dropWhile pyIsSpace).reverse) pyIsSpace).length_le
    rwa [List.length_reverse] at h3
  have e1 : (l.dropWhile pyIsSpace).length = l.length := by omega
  have hd1 : l.dropWhile pyIsSpace = l := dropWhile_eq_self_of_length e1
  rw [hd1] at hs
  have e2 : (l.reverse.dropWhile pyIsSpace).length = l.reverse.length := by
    rw [List.length_reverse]
    omega
  have hd2 : l.reverse.dropWhile pyIsSpace = l.reverse :=
    dropWhile_eq_self_of_length e2
  unfold pyStrip
  rw [hd1, hd2, List.reverse_reverse]

theorem no_space_ends_of_strip_fix {l : PyStr} (h : pyStrip l = l) :
    (∀ c, l.head? = some c → pyIsSpace c = false) ∧
    (∀ c, l.getLast? = some c → pyIsSpace c = false) := by
  have hlen : (pyStrip l).length = l.length := by rw [h]
  have h1 : (l.dropWhile pyIsSpace).length ≤ l.length :=
    (List.dropWhile_sublist _).length_le
  have hs : (pyStrip l).length =
      ((l.dropWhile pyIsSpace).reverse.dropWhile pyIsSpace).length := by
    unfold pyStrip
    rw [List.length_reverse]
  have h2 : ((l.dropWhile pyIsSpace).reverse.dropWhile pyIsSpace).length ≤
      (l.dropWhile pyIsSpace).length := by
    have h3 := (List.dropWhile_sublist
      (l := (l.dropWhile pyIsSpace).reverse) pyIsSpace).length_le
    rwa [List.length_reverse] at h3
  have e1 : (l.dropWhile pyIsSpace).length = l.length := by omega
  have hd1 : l.dropWhile pyIsSpace = l := dropWhile_eq_self_of_length e1
  rw [hd1] at hs
  have e2 : (l.reverse.dropWhile pyIsSpace).length = l.reverse.length := by
    rw [List.length_reverse]
    omega
  have hd2 : l.reverse.dropWhile pyIsSpace = l.reverse :=
    dropWhile_eq_self_of_length e2
  constructor
  · intro c hc
    cases l with
    | nil => exact absurd hc (by simp)
    | cons a t =>
      obtain rfl : a = c := by simpa using hc
      by_contra hsp
      rw [Bool.not_eq_false] at hsp
      have hlt := dropWhile_length_lt_of_head (t := t) hsp
      rw [hd1] at hlt
      omega
  · intro c hc
    rw [← List.head?_reverse] at hc
    cases hrev : l.reverse with
    | nil => rw [hrev] at hc; exact absurd hc (by simp)
    | cons a t =>
      rw [hrev] at hc
      obtain rfl : a = c := by simpa using hc
      by_contra hsp
      rw [Bool.not_eq_false] at hsp
      have hlt := dropWhile_length_lt_of_head (t := t) hsp
      rw [← hrev, hd2] at hlt
      omega

theorem lower_fix_chars {l : PyStr} (h : pyLower (pyStrip l) = l) :
    ∀ c ∈ l, pyLowerChar c = c := by
  intro c hc
  rw [← h] at hc
  unfold pyLower at hc
  obtain ⟨c', _, rfl⟩ := List.mem_map.1 hc
  exact pyLowerChar_idem c'

theorem strip_fix_of_norm {l : PyStr} (h : pyLower (pyStrip l) = l) :
    pyStrip l = l := by
  apply pyStrip_eq_self_of_length
  have hlen := congrArg List.length h
  unfold pyLower at hlen
  rwa [List.length_map] at hlen

theorem stats_of_absent (recs : List CountryRatingIn) (slug : PyStr)
    (h : ∀ r ∈ recs, r.country_slug ≠ slug) :
    country_rating_stats recs slug = ⟨slug, 0, 0⟩ := by
  have hf : recs.filter (fun r => decide (r.country_slug = slug)) = [] := by
    rw [List.filter_eq_nil_iff]
    intro r hr
    simp [h r hr]
  unfold country_rating_stats
  rw [hf]
  rfl

theorem mem_groupBySlug_of_mem_summary {recs : List CountryRatingIn}
    {limit : Option Int} {s : CountryStats}
    (hs : s ∈ ratings_summary recs limit) : s ∈ groupBySlug recs := by
  have key : ∀ t : CountryStats, t ∈ sortByAvgDesc (groupBySlug recs) →
      t ∈ groupBySlug recs :=
    fun t ht => (List.mem_insertionSort avgGe).1 ht
  cases limit with
  | none => exact key s hs
  | some l =>
    unfold ratings_summary at hs
    dsimp only at hs
    by_cases hl : 0 < l
    · rw [if_pos hl] at hs
      exact key s (List.mem_of_mem_take hs)
    · rw [if_neg hl] at hs
      exact key s hs

theorem ratingOk_false_of_bad {r : PyFloat}
    (h : ∀ q : ℚ, r = PyFloat.finite q → q < 0 ∨ 5 < q) :
    (r.geZero && r.leFive) = false := by
  cases r with
  | finite q =>
    rcases h q rfl with hq | hq
    · have hn : ¬ (0 ≤ q) := not_le.2 hq
      simp [PyFloat.geZero, PyFloat.leFive, hn]
    · have hn : ¬ (q ≤ 5) := not_le.2 hq
      simp [PyFloat.geZero, PyFloat.leFive, hn]
  | inf => rfl
  | ninf => rfl
  | nan => rfl

/-! ### Claims -/

/-- Claim C1, as stated, is false on the code: the submission whose
`country_slug` is the single code point 0xE9 (`é`) normalizes to itself, a
string containing a character outside `[a-z0-9-]`, and yet `validate`
accepts it, because Python's `str.isalnum` also accepts non-ASCII
alphanumerics. -/
theorem c1_spec_charset_counterexample :
    ((pyLower (pyStrip [233])).any fun c => !specSlugChar c) = true ∧
    validate ⟨[233], PyFloat.finite 3, none, none⟩ =
      Except.ok ⟨[233], 3, none, none⟩ := by
  constructor
  · decide
  · decide

/-- Claim C1 as amended: for every submission whose `country_slug`, after
trimming surrounding whitespace and lowercasing, is empty or contains any
character that is not alphanumeric in Python's Unicode sense
(`str.isalnum`) and not a hyphen, `validate` rejects the submission with a
`ValidationError` on the `country_slug` field; normalization happens before
the character check. -/
theorem c1_normalized_badchar_rejected (x : SubmissionRaw)
    (h : pyLower (pyStrip x.country_slug) = [] ∨
      ∃ c ∈ pyLower (pyStrip x.country_slug), slugCharOk c = false) :
    ∃ errs, validate x = Except.error errs ∧ VField.country_slug ∈ errs := by
  have hcond : ((pyLower (pyStrip x.country_slug)).isEmpty ||
      (pyLower (pyStrip x.country_slug)).any fun ch => !slugCharOk ch) = true := by
    rcases h with h | ⟨c, hc, hbad⟩
    · simp [h]
    · rw [Bool.or_eq_true]
      right
      rw [List.any_eq_true]
      exact ⟨c, hc, by rw [Bool.not_eq_true', hbad]⟩
  have hnone : validate_slug x.country_slug = none := by
    unfold validate_slug
    rw [if_pos hcond]
  refine ⟨VField.country_slug ::
    (if x.rating.geZero && x.rating.leFive then [] else [VField.rating]),
    ?_, List.mem_cons_self _ _⟩
  unfold validate
  rw [hnone]

/-- Witness for the amended claim C1: the submission with slug `" FR! "`
normalizes to `"fr!"`, whose `!` fails the character check, and is rejected
on the `country_slug` field. -/
theorem c1_normalized_badchar_rejected_witness :
    ∃ errs, validate ⟨[32, 70, 82, 33, 32], PyFloat.finite 3, none, none⟩ =
      Except.error errs ∧ VField.country_slug ∈ errs :=
  c1_normalized_badchar_rejected
    ⟨[32, 70, 82, 33, 32], PyFloat.finite 3, none, none⟩ (Or.inr (by decide))

/-- Claim C2: for every slug with zero stored records,
`country_rating_stats` returns the zero-valued `CountryStats` for that slug
and signals no error. -/
theorem c2_zero_records_zero_stats (recs : List CountryRatingIn) (slug : PyStr)
    (h : ∀ r ∈ recs, r.country_slug ≠ slug) :
    country_rating_stats recs slug = ⟨slug, 0, 0⟩ :=
  stats_of_absent recs slug h

/-- Witness for claim C2 at a concrete store: two records under other slugs,
queried for the absent slug `"c"`. -/
theorem c2_zero_records_zero_stats_witness :
    country_rating_stats demoTwo [99] = ⟨[99], 0, 0⟩ :=
  c2_zero_records_zero_stats demoTwo [99] (by decide)

/-- Claim C3: a provided positive `limit` truncates the summary to a prefix
of at most `limit` elements of the ordered sequence; an absent, zero or
negative `limit` leaves the sequence untruncated. -/
theorem c3_limit_semantics (recs : List CountryRatingIn) (limit : Option Int) :
    (∀ l : Int, limit = some l → 0 < l →
      ratings_summary recs limit = (ratings_summary recs none).take l.toNat ∧
      (ratings_summary recs limit).length ≤ l.toNat) ∧
    ((limit = none ∨ ∃ l : Int, limit = some l ∧ l ≤ 0) →
      ratings_summary recs limit = ratings_summary recs none) := by
  constructor
  · rintro l rfl hl
    unfold ratings_summary
    dsimp only
    rw [if_pos hl]
    exact ⟨rfl, List.length_take_le _ _⟩
  · rintro (rfl | ⟨l, rfl, hl⟩)
    · rfl
    · unfold ratings_summary
      dsimp only
      rw [if_neg (show ¬(0 : ℤ) < l by omega)]

/-- Witness for claim C3: with two stored groups, `limit = 1` yields the
one-element prefix of the untruncated summary. -/
theorem c3_limit_semantics_witness :
    ratings_summary demoTwo (some 1) =
      (ratings_summary demoTwo none).take (Int.toNat 1) :=
  ((c3_limit_semantics demoTwo (some 1)).1 1 rfl (by decide)).1

/-- Claim C4: the summary is sorted in descending order of `avg`: each
consecutive pair satisfies `later.avg ≤ earlier.avg`, for every store and
every limit. -/
theorem c4_sorted_descending_avg (recs : List CountryRatingIn)
    (limit : Option Int) :
    List.Chain' (fun a b => b.avg ≤ a.avg) (ratings_summary recs limit) := by
  have hp : List.Pairwise avgGe (sortByAvgDesc (groupBySlug recs)) :=
    List.sorted_insertionSort avgGe (groupBySlug recs)
  cases limit with
  | none => exact hp.chain'
  | some l =>
    unfold ratings_summary
    dsimp only
    by_cases hl : 0 < l
    · rw [if_pos hl]
      exact (List.Pairwise.sublist (List.take_sublist _ _) hp).chain'
    · rw [if_neg hl]
      exact hp.chain'

/-- Claim C5: every element of the summary carries as `avg` the arithmetic
mean of its group's ratings rounded to 3 decimal places. -/
theorem c5_avg_is_rounded_mean (recs : List CountryRatingIn)
    (limit : Option Int) (s : CountryStats)
    (hs : s ∈ ratings_summary recs limit) :
    s.avg = round3 (slugMean recs s.country_slug) := by
  obtain ⟨slug, hslug, rfl⟩ :=
    List.mem_map.1 (mem_groupBySlug_of_mem_summary hs)
  rfl

set_option maxRecDepth 8000 in
/-- Witness for claim C5 at the specification's rounding example: ratings
`[1, 2, 2]` average to `5/3`, which rounds to `1.667`. -/
theorem c5_avg_is_rounded_mean_witness :
    (statsFor demoThree [97]).avg = 1667 / 1000 := by
  rw [c5_avg_is_rounded_mean demoThree none (statsFor demoThree [97])
    (by with_unfolding_all decide)]
  with_unfolding_all decide

/-- Claim C6: `validate` rejects on the `rating` field whenever the rating
is below 0, above 5 or non-finite, and accepts any rating between 0 and 5
inclusive when the slug is otherwise valid. -/
theorem c6_rating_range (x : SubmissionRaw) :
    ((∀ q : ℚ, x.rating = PyFloat.finite q → q < 0 ∨ 5 < q) →
      ∃ errs, validate x = Except.error errs ∧ VField.rating ∈ errs) ∧
    (∀ (q : ℚ) (sv : PyStr), x.rating = PyFloat.finite q → 0 ≤ q → q ≤ 5 →
      validate_slug x.country_slug = some sv →
      validate x = Except.ok ⟨sv, q, x.user_id, x.comment⟩) := by
  constructor
  · intro hbad
    have hflag := ratingOk_false_of_bad hbad
    rcases hs : validate_slug x.country_slug with _ | sv
    · refine ⟨[VField.country_slug, VField.rating], ?_, by simp⟩
      unfold validate
      rw [hs]
      dsimp only
      simp [hflag]
    · rcases hr : x.rating with q | _ | _ | _
      · have hn : ¬ (0 ≤ q ∧ q ≤ 5) := by
          rcases hbad q hr with h | h
          · exact fun hc => absurd hc.1 (not_le.2 h)
          · exact fun hc => absurd hc.2 (not_le.2 h)
        refine ⟨[VField.rating], ?_, List.mem_cons_self _ _⟩
        unfold validate
        rw [hs, hr]
        dsimp only
        rw [if_neg hn]
      · refine ⟨[VField.rating], ?_, List.mem_cons_self _ _⟩
        unfold validate
        rw [hs, hr]
      · refine ⟨[VField.rating], ?_, List.mem_cons_self _ _⟩
        unfold validate
        rw [hs, hr]
      · refine ⟨[VField.rating], ?_, List.mem_cons_self _ _⟩
        unfold validate
        rw [hs, hr]
  · intro q sv hq h0 h5 hsv
    unfold validate
    rw [hsv, hq]
    dsimp only
    rw [if_pos ⟨h0, h5⟩]

/-- Witness for claim C6: a `nan` rating is rejected on the `rating` field,
and the boundary rating 5 with the already-normalized slug `"fr"` is
accepted. -/
theorem c6_rating_range_witness :
    (∃ errs, validate ⟨[102, 114], PyFloat.nan, none, none⟩ =
      Except.error errs ∧ VField.rating ∈ errs) ∧
    validate ⟨[102, 114], PyFloat.finite 5, none, none⟩ =
      Except.ok ⟨[102, 114], 5, none, none⟩ :=
  ⟨(c6_rating_range ⟨[102, 114], PyFloat.nan, none, none⟩).1
      (fun q hq => nomatch hq),
    (c6_rating_range ⟨[102, 114], PyFloat.finite 5, none, none⟩).2 5
      [102, 114] rfl (by decide) (by decide) (by decide)⟩

/-- Claim C7: re-validating the normalized submission returned by a
successful `validate` yields the same result: normalization is idempotent. -/
theorem c7_validate_idempotent (x : SubmissionRaw) (y : CountryRatingIn)
    (h : validate x = Except.ok y) :
    validate y.toRaw = validate x := by
  rw [h]
  unfold validate at h
  rcases hs : validate_slug x.country_slug with _ | sv <;> rw [hs] at h
  · exact absurd h (by simp)
  · rcases hr : x.rating with q | _ | _ | _ <;> rw [hr] at h
    · dsimp only at h
      by_cases hq : 0 ≤ q ∧ q ≤ 5
      · rw [if_pos hq] at h
        obtain rfl : (⟨sv, q, x.user_id, x.comment⟩ : CountryRatingIn) = y :=
          Except.ok.inj h
        unfold validate CountryRatingIn.toRaw
        dsimp only
        rw [validate_slug_idem hs]
        dsimp only
        rw [if_pos hq]
      · rw [if_neg hq] at h
        exact absurd h (by simp)
    · exact absurd h (by simp)
    · exact absurd h (by simp)
    · exact absurd h (by simp)

/-- Witness for claim C7: validating `" FR "` succeeds with the normalized
slug `"fr"`, and re-validating that normalized submission gives the same
result. -/
theorem c7_validate_idempotent_witness :
    validate (CountryRatingIn.toRaw ⟨[102, 114], 3, none, none⟩) =
      validate ⟨[32, 70, 82, 32], PyFloat.finite 3, none, none⟩ :=
  c7_validate_idempotent ⟨[32, 70, 82, 32], PyFloat.finite 3, none, none⟩
    ⟨[102, 114], 3, none, none⟩ (by decide)

/-- Claim C8: every element of the summary stems from at least one stored
record with that slug, so its count is at least 1; slugs without records
never appear. -/
theorem c8_groups_have_records (recs : List CountryRatingIn)
    (limit : Option Int) (s : CountryStats)
    (hs : s ∈ ratings_summary recs limit) :
    (∃ r ∈ recs, r.country_slug = s.country_slug) ∧ 1 ≤ s.count := by
  obtain ⟨slug, hslug, rfl⟩ :=
    List.mem_map.1 (mem_groupBySlug_of_mem_summary hs)
  have hmem : slug ∈ recs.map (fun r => r.country_slug) :=
    List.mem_dedup.1 hslug
  obtain ⟨r, hr, hrs⟩ := List.mem_map.1 hmem
  refine ⟨⟨r, hr, hrs⟩, ?_⟩
  have hrf : r ∈ recs.filter (fun r => decide (r.country_slug = slug)) :=
    List.mem_filter.2 ⟨hr, by simp [hrs]⟩
  exact List.length_pos_of_mem hrf

set_option maxRecDepth 8000 in
/-- Witness for claim C8: the single summary group of the three-record demo
store has a matching record and a positive count. -/
theorem c8_groups_have_records_witness :
    (∃ r ∈ demoThree,
      r.country_slug = (statsFor demoThree [97]).country_slug) ∧
    1 ≤ (statsFor demoThree [97]).count :=
  c8_groups_have_records demoThree none (statsFor demoThree [97])
    (by with_unfolding_all decide)

/-- Claim C9: `country_rating_stats` always reports the requested slug in
its result, with or without matching records. -/
theorem c9_returns_requested_slug (recs : List CountryRatingIn)
    (slug : PyStr) :
    (country_rating_stats recs slug).country_slug = slug := by
  unfold country_rating_stats
  cases hgb : groupBySlug (recs.filter fun r => decide (r.country_slug = slug)) with
  | nil => rfl
  | cons s rest =>
    dsimp only
    have hmem : s ∈ groupBySlug
        (recs.filter fun r => decide (r.country_slug = slug)) := by
      rw [hgb]
      exact List.mem_cons_self _ _
    obtain ⟨slug0, hslug0, rfl⟩ := List.mem_map.1 hmem
    have h0 : slug0 ∈ (recs.filter fun r => decide (r.country_slug = slug)).map
        (fun r => r.country_slug) := List.mem_dedup.1 hslug0
    obtain ⟨r, hr, hrs⟩ := List.mem_map.1 h0
    have hf : r.country_slug = slug := of_decide_eq_true (List.mem_filter.1 hr).2
    show slug0 = slug
    rw [← hrs]
    exact hf

/-- Claim C10: `country_rating_stats` matches its slug argument verbatim:
against a store whose slugs are all normalized, a query slug containing an
ASCII uppercase letter or surrounding whitespace matches nothing and yields
the zero-valued result. -/
theorem c10_no_normalization_on_read (recs : List CountryRatingIn)
    (slug : PyStr)
    (hnorm : ∀ r ∈ recs, validate_slug r.country_slug = some r.country_slug)
    (hbad : (∃ c ∈ slug, 65 ≤ c ∧ c ≤ 90) ∨
      (∃ c, (slug.head? = some c ∨ slug.getLast? = some c) ∧
        pyIsSpace c = true)) :
    country_rating_stats recs slug = ⟨slug, 0, 0⟩ := by
  apply stats_of_absent
  intro r hr heq
  have hv : validate_slug slug = some slug := heq ▸ hnorm r hr
  have hfix : pyLower (pyStrip slug) = slug := (validate_slug_eq_some hv).1.symm
  rcases hbad with ⟨c, hc, hlo, hhi⟩ | ⟨c, hends, hsp⟩
  · have hfixc := lower_fix_chars hfix c hc
    unfold pyLowerChar at hfixc
    rw [if_pos ⟨hlo, hhi⟩] at hfixc
    omega
  · have hstrip : pyStrip slug = slug := strip_fix_of_norm hfix
    obtain ⟨hhead, hlast⟩ := no_space_ends_of_strip_fix hstrip
    rcases hends with h | h
    · rw [hhead c h] at hsp
      exact Bool.noConfusion hsp
    · rw [hlast c h] at hsp
      exact Bool.noConfusion hsp

/-- Witness for claim C10: one stored record under the normalized slug
`"fr"`, queried with the uppercase slug `"FR"`, yields the zero-valued
result for `"FR"`. -/
theorem c10_no_normalization_on_read_witness :
    country_rating_stats [⟨[102, 114], 3, none, none⟩] [70, 82] =
      ⟨[70, 82], 0, 0⟩ :=
  c10_no_normalization_on_read [⟨[102, 114], 3, none, none⟩] [70, 82]
    (by decide) (Or.inl (by decide))
